import Mathlib

/-!
# Verification of `webargs.aiohttpparser`

A shallow embedding of `src/webargs/aiohttpparser.py`: the aiohttp request
argument parser of webargs.  Pure data is translated to Lean structures;
the per-request cache (`self._cache`) and the instrumented count of awaited
body reads (`req.json()` / `req.post()`) are threaded as explicit state;
raised exceptions become explicit `Raised` values / `Except` errors.

External collaborators that are not part of the translated source
(aiohttp request internals, the `json` codec, `webargs.core`,
`webargs.multidictproxy`) are modelled where noted, faithful to the
specification's description of them.
-/

set_option autoImplicit false

namespace Webargs

/-- A parsed JSON value, as produced by the external `json.loads`.
`Json.null` plays the role of Python `None` (which is what a JSON `null`
deserializes to), the distinguished value the cache code tests with `is None`. -/
inductive Json where
  | null
  | bool (b : Bool)
  | num (n : Int)
  | str (s : String)
  | arr (elems : List Json)
  | obj (members : List (String × Json))

/-- Python's `x is None` on a deserialized JSON value. -/
def Json.isNull : Json → Bool
  | .null => true
  | _ => false

/-- Outcome of the awaited `req.json(loads=json.loads)` call: a parsed value,
a `json.JSONDecodeError` carrying the document `e.doc` being parsed, or a
`UnicodeDecodeError`.  The body codec is an external collaborator, so the
request carries the outcome directly. -/
inductive BodyParse where
  | ok (v : Json)
  | jsonDecodeError (doc : String)
  | unicodeDecodeError

/-- An aiohttp `web.Request`, reduced to the capabilities the parser reads.
Modelled from the spec: `webargs.core.is_json` is not under src/, so the
request carries `content_type_is_json`, the Boolean outcome of
`core.is_json(req.content_type)`, instead of a raw content-type string. -/
structure Request where
  body_exists : Bool
  content_type_is_json : Bool
  json_body : BodyParse
  post : List (String × String)
  query : List (String × String)

/-- `is_json_request(req)` from the source: whether the request's content
type counts as JSON. -/
def is_json_request (req : Request) : Bool :=
  req.content_type_is_json

/-- A marshmallow schema, reduced to what the parser inspects.
Modelled from the spec: the schema library is external; each declared field
carries its name and its declared multiplicity (`true` = list/array-typed). -/
structure Schema where
  fields : List (String × Bool)
deriving DecidableEq

/-- `webargs.multidictproxy.MultiDictProxy`: a schema-aware view over a
multi-valued key/value source.  Modelled from the spec: the class is part
of this repository but not under src/; per the spec it pairs the raw
multidict with the schema that drives scalar-versus-list access. -/
structure MultiDictProxy where
  data : List (String × String)
  schema : Schema
deriving DecidableEq

/-- The parser's per-request state: the `self._cache` entries under keys
`"json"` and `"post"` (a `dict`, so an absent key and a stored `None` are
both observed as `None` by `.get`), plus instrumentation counting how many
times the awaited body reads `req.json()` / `req.post()` were performed. -/
structure ParserState where
  cache_json : Option Json
  cache_post : Option (List (String × String))
  json_reads : Nat
  post_reads : Nat

/-- The fresh per-request state: empty cache, no body reads performed. -/
def initState : ParserState :=
  { cache_json := none, cache_post := none, json_reads := 0, post_reads := 0 }

/-- `self._cache.get("json")` as Python observes it: a missing key and a
stored `None` (= `Json.null`) are both returned as `None`. -/
def cacheGetJson (entry : Option Json) : Json :=
  match entry with
  | none => Json.null
  | some v => v

/-- A `ValidationError`'s `messages`: field name to list of message strings. -/
def Messages : Type := List (String × List String)

/-- Escaping performed by the external `json.dumps` on one character of a
string value. -/
def escapeChar (c : Char) : List Char :=
  if c = '"' then ['\\', '"']
  else if c = '\\' then ['\\', '\\']
  else [c]

/-- Escaping performed by the external `json.dumps` on the characters that
occur in string values here. -/
def jsonEscape (s : String) : String :=
  ⟨s.data.foldr (fun c acc => escapeChar c ++ acc) []⟩

/-- A JSON string literal, as `json.dumps` renders it. -/
def dumpsStr (s : String) : String :=
  "\"" ++ jsonEscape s ++ "\""

/-- `json.dumps` on a field-to-messages mapping, with Python's default
separators (`", "` and `": "`). -/
def dumpsMessages (m : Messages) : String :=
  "\x7b" ++
    String.intercalate ", "
      (m.map (fun kv =>
        dumpsStr kv.1 ++ ": " ++
          "[" ++ String.intercalate ", " (kv.2.map dumpsStr) ++ "]")) ++
  "\x7d"

/-- An exception class of the host framework as the scan in
`_find_exceptions` observes it: whether `issubclass(obj, HTTPException)`
holds (also `false` when that call raises `TypeError` because `obj` is not
a class), its `status_code` attribute, and the ids of the classes it
subclasses (`supers` lists every superclass id, itself included). -/
structure Cls where
  id : Nat
  is_http_exception : Bool
  status_code : Option Nat
  supers : List Nat
deriving DecidableEq

/-- Python's `issubclass(c, d)` over the modelled class table. -/
def isSubclassOf (c d : Cls) : Bool :=
  c.supers.contains d.id

/-- `class HTTPUnprocessableEntity(web.HTTPClientError): status_code = 422`,
the dedicated 422 type the module defines. -/
def HTTPUnprocessableEntity : Cls :=
  { id := 0, is_http_exception := true, status_code := some 422, supers := [0] }

/-- `exception_map = {422: HTTPUnprocessableEntity}`: the table as pre-seeded
before `_find_exceptions` runs, as a function from status code to class. -/
def exception_map_init : Nat → Option Cls :=
  fun s => if s = 422 then some HTTPUnprocessableEntity else none

/-- `exception_map[code] = obj`. -/
def mapInsert (m : Nat → Option Cls) (code : Nat) (obj : Cls) : Nat → Option Cls :=
  fun s => if s = code then some obj else m s

/-- One iteration of the loop body of `_find_exceptions` on the class `obj`:
skip non-HTTP-exceptions and classes without a concrete status code; then
register `obj` under its status code unless the already-registered class
`old_obj` exists and `issubclass(obj, old_obj)`. -/
def find_exceptions_step (m : Nat → Option Cls) (obj : Cls) : Nat → Option Cls :=
  if obj.is_http_exception = false then m
  else
    match obj.status_code with
    | none => m
    | some code =>
      match m code with
      | some old_obj => if isSubclassOf obj old_obj then m else mapInsert m code obj
      | none => mapInsert m code obj

/-- `_find_exceptions()`: fold the loop body over the classes enumerated by
`web_exceptions.__all__` (the host framework's table, passed as `table`). -/
def find_exceptions (table : List Cls) (m : Nat → Option Cls) : Nat → Option Cls :=
  table.foldl find_exceptions_step m

/-- An exception the parser raises, made explicit: a framework HTTP error
constructed with a body, optional headers and a content type; the
`LookupError` of `handle_error`; or the `KeyError` a failed
`exception_map[400]` indexing would raise. -/
inductive Raised where
  | http (cls : Cls) (body : String)
      (headers : Option (List (String × String))) (content_type : String)
  | lookupError (msg : String)
  | keyError (code : Nat)
deriving DecidableEq

/-- The fixed messages of `_handle_invalid_json_error`. -/
def invalid_json_messages : Messages :=
  [("json", ["Invalid JSON body."])]

/-- `AIOHTTPParser._handle_invalid_json_error`: index `exception_map[400]`
(a `KeyError` if absent) and raise that class with the fixed JSON message
body and content type `application/json` (no headers are passed). -/
def handle_invalid_json_error (emap : Nat → Option Cls) : Raised :=
  match emap 400 with
  | none => .keyError 400
  | some error_cls =>
      .http error_cls (dumpsMessages invalid_json_messages) none "application/json"

/-- What `load_json` hands back when it does not raise: the `core.missing`
sentinel or a parsed JSON payload. -/
inductive JsonLoad where
  | missing
  | value (v : Json)

/-- `AIOHTTPParser.load_json`: consult the `"json"` cache entry (a stored
`None` is indistinguishable from an absent entry); on a miss, return
`core.missing` unless the body exists and the content type is JSON;
otherwise await `req.json()` (counted as a body read), mapping an empty
document's decode error to `core.missing`, any other decode or unicode
error to `_handle_invalid_json_error`, and caching a successful parse. -/
def load_json (emap : Nat → Option Cls) (req : Request) (schema : Schema)
    (s : ParserState) : Except Raised JsonLoad × ParserState :=
  let json_data := cacheGetJson s.cache_json
  if json_data.isNull then
    if !(req.body_exists && is_json_request req) then
      (.ok .missing, s)
    else
      let s1 := { s with json_reads := s.json_reads + 1 }
      match req.json_body with
      | .jsonDecodeError doc =>
        if doc = "" then (.ok .missing, s1)
        else (.error (handle_invalid_json_error emap), s1)
      | .unicodeDecodeError => (.error (handle_invalid_json_error emap), s1)
      | .ok v => (.ok (.value v), { s1 with cache_json := some v })
  else (.ok (.value json_data), s)

/-- `AIOHTTPParser.load_form`: consult the `"post"` cache entry; on a miss,
await `req.post()` (counted as a body read) and cache it; wrap the cached
multidict in a `MultiDictProxy` with the schema. -/
def load_form (req : Request) (schema : Schema) (s : ParserState) :
    MultiDictProxy × ParserState :=
  match s.cache_post with
  | some post_data => (⟨post_data, schema⟩, s)
  | none =>
      let s1 := { s with cache_post := some req.post,
                         post_reads := s.post_reads + 1 }
      (⟨req.post, schema⟩, s1)

/-- The `Union[Dict, MultiDictProxy]` result of `load_json_or_form`. -/
inductive JsonOrForm where
  | jsonData (v : Json)
  | formData (p : MultiDictProxy)

/-- `AIOHTTPParser.load_json_or_form`: `data = await self.load_json(...)`;
if `data is not core.missing`, return it; else fall back to `load_form`. -/
def load_json_or_form (emap : Nat → Option Cls) (req : Request) (schema : Schema)
    (s : ParserState) : Except Raised JsonOrForm × ParserState :=
  match load_json emap req schema s with
  | (.error e, s1) => (.error e, s1)
  | (.ok .missing, s1) =>
      let r := load_form req schema s1
      (.ok (.formData r.1), r.2)
  | (.ok (.value v), s1) => (.ok (.jsonData v), s1)

/-- `AIOHTTPParser.load_querystring`: wrap `req.query` and the schema in a
`MultiDictProxy`. -/
def load_querystring (req : Request) (schema : Schema) : MultiDictProxy :=
  ⟨req.query, schema⟩

/-- The `NotImplementedError` raised by `load_files`. -/
structure NotImplementedRaised where
  msg : String
deriving DecidableEq

/-- `AIOHTTPParser.load_files`: unconditionally raise `NotImplementedError`
with the fixed message pointing the caller at `load_form`. -/
def load_files (req : Request) (schema : Schema) : NotImplementedRaised :=
  ⟨"load_files is not implemented. You may be able to use load_form for " ++
   "parsing upload data."⟩

/-- `webargs.core.DEFAULT_VALIDATION_STATUS`.  Modelled from the spec:
`core` is not under src/; the spec fixes the default validation-failure
status at 422 ("a fixed unprocessable entity status", "default 422"). -/
def DEFAULT_VALIDATION_STATUS : Nat := 422

/-- Python's `x or d` on an optional integer `x`: both `None` and the falsy
integer `0` select the default. -/
def pyIntOr (x : Option Nat) (d : Nat) : Nat :=
  match x with
  | none => d
  | some v => if v = 0 then d else v

/-- Python's `"{0}".format(x)` on an optional integer: `None` prints as
`"None"`. -/
def pyReprOptNat (x : Option Nat) : String :=
  match x with
  | none => "None"
  | some v => toString v

/-- `AIOHTTPParser.handle_error`: look up
`exception_map.get(error_status_code or DEFAULT_VALIDATION_STATUS)`; if the
lookup yields nothing, raise `LookupError("No exception for {0}".format(error_status_code))`;
otherwise raise the found class with the JSON-encoded messages as body, the
given headers, and content type `application/json`.  Every path raises. -/
def handle_error (emap : Nat → Option Cls) (messages : Messages)
    (error_status_code : Option Nat)
    (error_headers : Option (List (String × String))) : Raised :=
  match emap (pyIntOr error_status_code DEFAULT_VALIDATION_STATUS) with
  | none => .lookupError ("No exception for " ++ pyReprOptNat error_status_code)
  | some error_cls =>
      .http error_cls (dumpsMessages messages) error_headers "application/json"

/-- `getall` of a multidict: the full ordered sequence of values carried by
a key. -/
def getall (d : List (String × String)) (k : String) : List String :=
  (d.filter (fun kv => decide (kv.1 = k))).map (fun kv => kv.2)

/-- The declared multiplicity of a schema field: `some true` for a
list/array-typed field, `some false` for a scalar field, `none` when the
schema does not declare the field. -/
def schemaMultiplicity (schema : Schema) (k : String) : Option Bool :=
  (schema.fields.find? (fun f => decide (f.1 = k))).map (fun f => f.2)

/-- A raw value handed to schema coercion: a single occurrence for a scalar
field, or the full ordered sequence for a list-typed field. -/
inductive RawVal where
  | one (v : String)
  | many (vs : List String)
deriving DecidableEq

/-- Schema-aware access of `MultiDictProxy`.  Modelled from the spec: the
proxy "returns a single value for fields the schema declares as scalar
(first or only occurrence)" and "the full ordered sequence of values for
fields the schema declares as list/array-typed", driven by the declared
multiplicity; an absent key yields nothing (the field falls back to its
schema default). -/
def MultiDictProxy.get (p : MultiDictProxy) (k : String) : Option RawVal :=
  match getall p.data k with
  | [] => none
  | v :: vs =>
    match schemaMultiplicity p.schema k with
    | some true => some (.many (v :: vs))
    | _ => some (.one v)

/-- The location-`query` parse.  Modelled from the spec: the core parse
loop (in `webargs.core`, not under src/) builds the proxy via the source's
`load_querystring` and binds each schema-declared field present in the
proxy to the proxy's schema-aware value for it. -/
def parse_query (schema : Schema) (req : Request) : List (String × RawVal) :=
  let p := load_querystring req schema
  schema.fields.filterMap (fun f => (p.get f.1).map (fun v => (f.1, v)))

/-- First-occurrence lookup in the parsed-arguments association list. -/
def lookupArg (l : List (String × RawVal)) (k : String) : Option RawVal :=
  (l.find? (fun kv => decide (kv.1 = k))).map (fun kv => kv.2)

/-- A positional argument of a wrapped handler, as
`get_request_from_view_args` classifies it: an aiohttp `web.Request`, a
`web.View` whose `.request` attribute holds a request (`none` when that
attribute is not a request), or any other value — e.g. a path parameter. -/
inductive ViewArg where
  | request (r : Request)
  | view (request_attr : Option Request)
  | other (id : Nat)

/-- The value of the local `req` after the scanning loop of
`get_request_from_view_args`: still `None`, a found `web.Request`, or a
`web.View`'s `.request` attribute that is not a request. -/
inductive ReqVar where
  | pynone
  | found (r : Request)
  | notRequest

/-- The loop of `get_request_from_view_args`: take the first positional
argument that is a `web.Request` (used directly) or a `web.View` (its
`.request` attribute is used) and stop there. -/
def scan_args : List ViewArg → ReqVar
  | [] => .pynone
  | .request r :: _ => .found r
  | .view (some r) :: _ => .found r
  | .view none :: _ => .notRequest
  | .other _ :: rest => scan_args rest

/-- `AIOHTTPParser.get_request_from_view_args`: scan the positional
arguments; unless the scan produced a `web.Request`, raise
`ValueError("Request argument not found for handler")`. -/
def get_request_from_view_args (args : List ViewArg) : Except String Request :=
  match scan_args args with
  | .found r => .ok r
  | _ => .error "Request argument not found for handler"

/-! ## Helper lemmas -/

/-- The fixed invalid-JSON message body renders exactly as the spec's
literal `{"json": ["Invalid JSON body."]}`. -/
theorem dumpsMessages_invalid_json :
    dumpsMessages invalid_json_messages =
      "\x7b\"json\": [\"Invalid JSON body.\"]\x7d" := by
  decide

/-- `load_json` never touches the form-side state. -/
theorem load_json_preserves_post (emap : Nat → Option Cls) (req : Request)
    (schema : Schema) (s : ParserState) :
    (load_json emap req schema s).2.post_reads = s.post_reads ∧
    (load_json emap req schema s).2.cache_post = s.cache_post := by
  by_cases hnull : (cacheGetJson s.cache_json).isNull = true
  · by_cases hb : (!(req.body_exists && is_json_request req)) = true
    · simp [load_json, hnull, hb]
    · cases hj : req.json_body with
      | jsonDecodeError doc =>
          by_cases hd : doc = "" <;> simp [load_json, hnull, hb, hj, hd]
      | unicodeDecodeError => simp [load_json, hnull, hb, hj]
      | ok v => simp [load_json, hnull, hb, hj]
  · simp [load_json, hnull]

/-! ## Claims -/

/-- Claim C8: for every request and schema, loading with location `files`
always fails with a `NotImplementedError` whose message directs the caller
to use the form loader (`load_form`) for upload data; it never returns a
value (its result is the raised error). -/
theorem c8_load_files_always_fails (req : Request) (schema : Schema) :
    load_files req schema =
      ⟨"load_files is not implemented. You may be able to use load_form for parsing upload data."⟩ ∧
    ∃ a b, (load_files req schema).msg = a ++ "load_form" ++ b :=
  ⟨rfl, "load_files is not implemented. You may be able to use ",
    " for parsing upload data.", rfl⟩

/-- Claim C3: `handle_error` never returns normally: it always raises either
the framework error type looked up in the exception map under the given
status (defaulting to the fixed 422 unprocessable-entity status when no
status is given), carrying the failure's field-to-messages mapping
JSON-encoded as body and content type `application/json`, or — when no
response type is registered for the requested status — a lookup error. -/
theorem c3_handle_error_spec (emap : Nat → Option Cls) (messages : Messages)
    (status : Option Nat) (headers : Option (List (String × String))) :
    (∀ cls, emap (pyIntOr status DEFAULT_VALIDATION_STATUS) = some cls →
        handle_error emap messages status headers =
          Raised.http cls (dumpsMessages messages) headers "application/json") ∧
    (emap (pyIntOr status DEFAULT_VALIDATION_STATUS) = none →
        handle_error emap messages status headers =
          Raised.lookupError ("No exception for " ++ pyReprOptNat status)) ∧
    pyIntOr none DEFAULT_VALIDATION_STATUS = 422 ∧
    ((∃ cls, handle_error emap messages status headers =
        Raised.http cls (dumpsMessages messages) headers "application/json") ∨
     (∃ msg, handle_error emap messages status headers = Raised.lookupError msg)) := by
  refine ⟨?_, ?_, rfl, ?_⟩
  · intro cls h
    unfold handle_error
    rw [h]
  · intro h
    unfold handle_error
    rw [h]
  · unfold handle_error
    cases h : emap (pyIntOr status DEFAULT_VALIDATION_STATUS) with
    | none => exact Or.inr ⟨_, rfl⟩
    | some cls => exact Or.inl ⟨cls, rfl⟩

/-- Witness for C3 at a concrete input: default status, seeded 422 map. -/
theorem c3_handle_error_spec_witness :
    handle_error exception_map_init [("name", ["Shorter than minimum length 3."])]
        none none =
      Raised.http HTTPUnprocessableEntity
        (dumpsMessages [("name", ["Shorter than minimum length 3."])])
        none "application/json" :=
  (c3_handle_error_spec exception_map_init
      [("name", ["Shorter than minimum length 3."])] none none).1
    HTTPUnprocessableEntity (by decide)

/-- Claim C9: a falsy `error_status_code` (`None` or the integer `0`) makes
`handle_error` look up the default validation status 422: with 422
registered it raises that class (no lookup error), and registering a class
under status 0 changes nothing about the call with status 0. -/
theorem c9_handle_error_falsy_status (emap : Nat → Option Cls)
    (messages : Messages) (headers : Option (List (String × String)))
    (c0 : Cls) :
    (∀ cls, emap 422 = some cls →
        handle_error emap messages (some 0) headers =
          Raised.http cls (dumpsMessages messages) headers "application/json" ∧
        handle_error emap messages none headers =
          Raised.http cls (dumpsMessages messages) headers "application/json") ∧
    handle_error (mapInsert emap 0 c0) messages (some 0) headers =
      handle_error emap messages (some 0) headers ∧
    pyIntOr (some 0) DEFAULT_VALIDATION_STATUS = 422 := by
  refine ⟨?_, ?_, rfl⟩
  · intro cls h
    refine ⟨?_, ?_⟩ <;>
      simp [handle_error, pyIntOr, DEFAULT_VALIDATION_STATUS, h]
  · simp [handle_error, pyIntOr, DEFAULT_VALIDATION_STATUS, mapInsert]

/-- Witness for C9 at a concrete input: the seeded map, a stray class
registered under 0. -/
theorem c9_handle_error_falsy_status_witness :
    handle_error exception_map_init [] (some 0) none =
      Raised.http HTTPUnprocessableEntity (dumpsMessages []) none "application/json" :=
  ((c9_handle_error_falsy_status exception_map_init [] none
      HTTPUnprocessableEntity).1 HTTPUnprocessableEntity (by decide)).1

/-- A framework class shaped like aiohttp's `HTTPBadRequest`, used to
instantiate theorems at concrete inputs. -/
def sampleBadRequestCls : Cls :=
  { id := 2, is_http_exception := true, status_code := some 400, supers := [2] }

/-- A concrete exception map carrying entries for 422 and 400. -/
def sampleMap400 : Nat → Option Cls :=
  mapInsert exception_map_init 400 sampleBadRequestCls

/-- A concrete request with a non-empty, malformed JSON body. -/
def invalidJsonBodyReq : Request :=
  { body_exists := true, content_type_is_json := true,
    json_body := .jsonDecodeError "not json", post := [], query := [] }

/-- Claim C1: with location `json` on a fresh request, `load_json` returns
the `core.missing` sentinel without failing when the body is absent, the
content type is not JSON, or the body is empty (decode error on the empty
document); when a JSON-typed body is present but malformed or
undecodable, it raises the status-400 class of the exception map with the
exact JSON body `{"json": ["Invalid JSON body."]}` and content type
`application/json`. -/
theorem c1_load_json_error_handling (emap : Nat → Option Cls) (req : Request)
    (schema : Schema) (cls400 : Cls)
    (hmap : emap 400 = some cls400) (hstatus : cls400.status_code = some 400) :
    (req.body_exists = false ∨ is_json_request req = false →
        load_json emap req schema initState = (.ok .missing, initState)) ∧
    (req.json_body = .jsonDecodeError "" →
        (load_json emap req schema initState).1 = .ok .missing) ∧
    (∀ doc, doc ≠ "" → req.json_body = BodyParse.jsonDecodeError doc →
        req.body_exists = true → is_json_request req = true →
        (load_json emap req schema initState).1 =
          .error (.http cls400 "\x7b\"json\": [\"Invalid JSON body.\"]\x7d" none
            "application/json") ∧
        cls400.status_code = some 400) ∧
    (req.json_body = .unicodeDecodeError →
        req.body_exists = true → is_json_request req = true →
        (load_json emap req schema initState).1 =
          .error (.http cls400 "\x7b\"json\": [\"Invalid JSON body.\"]\x7d" none
            "application/json") ∧
        cls400.status_code = some 400) := by
  have hre : handle_invalid_json_error emap =
      Raised.http cls400 "\x7b\"json\": [\"Invalid JSON body.\"]\x7d" none
        "application/json" := by
    unfold handle_invalid_json_error
    rw [hmap, dumpsMessages_invalid_json]
  refine ⟨?_, ?_, ?_, ?_⟩
  · intro h
    have hb : (!(req.body_exists && is_json_request req)) = true := by
      rcases h with h | h <;> simp [h]
    simp [load_json, initState, cacheGetJson, Json.isNull, hb]
  · intro hj
    by_cases hb : (!(req.body_exists && is_json_request req)) = true
    · simp [load_json, initState, cacheGetJson, Json.isNull, hb]
    · simp [load_json, initState, cacheGetJson, Json.isNull, hb, hj]
  · intro doc hdoc hj hbody hct
    have hb : (!(req.body_exists && is_json_request req)) = false := by
      simp [hbody, hct]
    refine ⟨?_, hstatus⟩
    simp [load_json, initState, cacheGetJson, Json.isNull, hb, hj, hdoc, hre]
  · intro hj hbody hct
    have hb : (!(req.body_exists && is_json_request req)) = false := by
      simp [hbody, hct]
    refine ⟨?_, hstatus⟩
    simp [load_json, initState, cacheGetJson, Json.isNull, hb, hj, hre]

/-- Witness for C1 at a concrete input: a malformed non-empty JSON body
raises the 400 class with the exact message body. -/
theorem c1_load_json_error_handling_witness :
    (load_json sampleMap400 invalidJsonBodyReq ⟨[]⟩ initState).1 =
      .error (.http sampleBadRequestCls
        "\x7b\"json\": [\"Invalid JSON body.\"]\x7d" none "application/json") :=
  ((c1_load_json_error_handling sampleMap400 invalidJsonBodyReq ⟨[]⟩
      sampleBadRequestCls (by decide) (by decide)).2.2.1 "not json"
      (by decide) rfl rfl rfl).1

/-- Claim C5: `load_json_or_form` tries the JSON load first and falls back
to the form load exactly when the JSON load returns the `core.missing`
sentinel; a non-missing JSON result is returned unchanged (no form read),
an exception propagates, and in particular a request whose content type is
not JSON yields the form-decoded mapping. -/
theorem c5_load_json_or_form_fallback (emap : Nat → Option Cls)
    (req : Request) (schema : Schema) (s : ParserState) :
    ((load_json emap req schema s).1 = .ok .missing →
        load_json_or_form emap req schema s =
          (.ok (.formData (load_form req schema (load_json emap req schema s).2).1),
            (load_form req schema (load_json emap req schema s).2).2)) ∧
    (∀ v, (load_json emap req schema s).1 = .ok (.value v) →
        load_json_or_form emap req schema s =
          (.ok (.jsonData v), (load_json emap req schema s).2) ∧
        (load_json_or_form emap req schema s).2.post_reads = s.post_reads) ∧
    (∀ e, (load_json emap req schema s).1 = .error e →
        load_json_or_form emap req schema s =
          (.error e, (load_json emap req schema s).2)) ∧
    (is_json_request req = false →
        (load_json_or_form emap req schema initState).1 =
          .ok (.formData ⟨req.post, schema⟩)) := by
  refine ⟨?_, ?_, ?_, ?_⟩
  · intro h
    rcases hlj : load_json emap req schema s with ⟨res, s1⟩
    rw [hlj] at h
    simp only at h
    subst h
    simp [load_json_or_form, hlj]
  · intro v h
    rcases hlj : load_json emap req schema s with ⟨res, s1⟩
    rw [hlj] at h
    simp only at h
    subst h
    have hpost := (load_json_preserves_post emap req schema s).1
    rw [hlj] at hpost
    simp only at hpost
    simp [load_json_or_form, hlj, hpost]
  · intro e h
    rcases hlj : load_json emap req schema s with ⟨res, s1⟩
    rw [hlj] at h
    simp only at h
    subst h
    simp [load_json_or_form, hlj]
  · intro hct
    have hb : (!(req.body_exists && is_json_request req)) = true := by
      simp [hct]
    simp [load_json_or_form, load_json, load_form, initState, cacheGetJson,
      Json.isNull, hb]

/-- A concrete request with form data and a non-JSON content type. -/
def formOnlyReq : Request :=
  { body_exists := true, content_type_is_json := false,
    json_body := .jsonDecodeError "name=Steve",
    post := [("name", "Steve")], query := [] }

/-- Witness for C5 at a concrete input: no JSON content type, valid form
data, `json_or_form` yields the form mapping. -/
theorem c5_load_json_or_form_fallback_witness :
    (load_json_or_form exception_map_init formOnlyReq ⟨[("name", false)]⟩
        initState).1 =
      .ok (.formData ⟨[("name", "Steve")], ⟨[("name", false)]⟩⟩) :=
  (c5_load_json_or_form_fallback exception_map_init formOnlyReq
      ⟨[("name", false)]⟩ initState).2.2.2 rfl

/-- Lemma: leading arguments that are neither requests nor views are
skipped by the scanning loop. -/
theorem scan_args_append_others (front : List ViewArg)
    (hfront : ∀ a ∈ front, ∃ i, a = ViewArg.other i) (tail : List ViewArg) :
    scan_args (front ++ tail) = scan_args tail := by
  induction front with
  | nil => rfl
  | cons a front ih =>
      obtain ⟨i, rfl⟩ := hfront a (by simp)
      simp only [List.cons_append, scan_args]
      exact ih (fun b hb => hfront b (by simp [hb]))

/-- Claim C7: `get_request_from_view_args` finds the request positionally
independently: after any run of non-request, non-view arguments (e.g. path
parameters) it returns the first argument that is itself a request, or the
`.request` attribute of the first view argument; when no argument has
either shape it raises `ValueError("Request argument not found for handler")`. -/
theorem c7_get_request_from_view_args (front rest : List ViewArg) (r : Request)
    (hfront : ∀ a ∈ front, ∃ i, a = ViewArg.other i) :
    get_request_from_view_args (front ++ ViewArg.request r :: rest) = .ok r ∧
    get_request_from_view_args (front ++ ViewArg.view (some r) :: rest) = .ok r ∧
    (∀ args : List ViewArg, (∀ a ∈ args, ∃ i, a = ViewArg.other i) →
        get_request_from_view_args args =
          .error "Request argument not found for handler") := by
  refine ⟨?_, ?_, ?_⟩
  · unfold get_request_from_view_args
    rw [scan_args_append_others front hfront]
    rfl
  · unfold get_request_from_view_args
    rw [scan_args_append_others front hfront]
    rfl
  · intro args hargs
    unfold get_request_from_view_args
    rw [show args = args ++ ([] : List ViewArg) by simp,
      scan_args_append_others args hargs]
    rfl

/-- A concrete request used in the view-argument witness. -/
def sampleRequest : Request :=
  { body_exists := false, content_type_is_json := false,
    json_body := .jsonDecodeError "", post := [], query := [] }

/-- Witness for C7 at a concrete input: a path-parameter-like argument
comes first, the request is still located. -/
theorem c7_get_request_from_view_args_witness :
    get_request_from_view_args
        [ViewArg.other 1, ViewArg.request sampleRequest] = .ok sampleRequest :=
  (c7_get_request_from_view_args [ViewArg.other 1] [] sampleRequest
      (by
        intro a ha
        rw [List.mem_singleton] at ha
        exact ⟨1, ha⟩)).1

/-- A concrete request whose JSON body is the document `null`, which
deserializes to Python `None`. -/
def nullBodyReq : Request :=
  { body_exists := true, content_type_is_json := true,
    json_body := .ok Json.null, post := [], query := [] }

/-- Counterexample to claim C2 as stated: on a request whose JSON body is
`null`, the first `load_json` performs a successful body read returning the
parsed value, yet a second `load_json` in the same request performs the
underlying body read again — the cache entry `None` is indistinguishable
from an absent entry — so the body read is not performed at most once. -/
theorem c2_cache_counterexample :
    (load_json exception_map_init nullBodyReq ⟨[]⟩ initState).1 =
      .ok (.value Json.null) ∧
    (load_json exception_map_init nullBodyReq ⟨[]⟩ initState).2.json_reads = 1 ∧
    (load_json exception_map_init nullBodyReq ⟨[]⟩
        (load_json exception_map_init nullBodyReq ⟨[]⟩ initState).2).2.json_reads
      = 2 :=
  ⟨rfl, rfl, rfl⟩

/-- After `load_json` hands back a parsed value, that value is what the
`"json"` cache entry observably holds. -/
theorem load_json_value_caches (emap : Nat → Option Cls) (req : Request)
    (schema : Schema) (s : ParserState) (v : Json)
    (hv : (load_json emap req schema s).1 = .ok (.value v)) :
    cacheGetJson (load_json emap req schema s).2.cache_json = v := by
  by_cases hnull : (cacheGetJson s.cache_json).isNull = true
  · by_cases hb : (!(req.body_exists && is_json_request req)) = true
    · simp [load_json, hnull, hb] at hv
    · cases hj : req.json_body with
      | jsonDecodeError doc =>
          by_cases hd : doc = "" <;>
            simp [load_json, hnull, hb, hj, hd] at hv
      | unicodeDecodeError => simp [load_json, hnull, hb, hj] at hv
      | ok w =>
          simp only [load_json, hnull, hb, hj, if_true, Bool.false_eq_true,
            if_false] at hv ⊢
          simp only [Except.ok.injEq, JsonLoad.value.injEq] at hv
          simp [cacheGetJson, hv]
  · simp only [load_json, Bool.not_eq_true] at hv ⊢
    rw [if_neg (by simp [hnull])] at hv ⊢
    simp only [Except.ok.injEq, JsonLoad.value.injEq] at hv
    simp [hv]

/-- A cache hit in `load_json`: with a non-null cached value, the load
returns it and leaves the state untouched. -/
theorem load_json_cache_hit (emap : Nat → Option Cls) (req : Request)
    (schema : Schema) (s : ParserState) (v : Json)
    (hc : cacheGetJson s.cache_json = v) (hnn : v.isNull = false) :
    load_json emap req schema s = (.ok (.value v), s) := by
  simp [load_json, hc, hnn]

/-- A cache hit in `load_form`: the cached multidict is wrapped and the
state is untouched. -/
theorem load_form_cache_hit (req : Request) (schema : Schema)
    (s : ParserState) (pd : List (String × String))
    (hc : s.cache_post = some pd) :
    load_form req schema s = (⟨pd, schema⟩, s) := by
  simp [load_form, hc]

/-- The `"post"` cache entry holds the multidict `load_form` wrapped. -/
theorem load_form_caches (req : Request) (schema : Schema) (s : ParserState) :
    (load_form req schema s).2.cache_post =
      some (load_form req schema s).1.data := by
  unfold load_form
  cases h : s.cache_post with
  | some pd => simp [h]
  | none => simp

/-- Claim C2 (amended): the per-request cache guarantees at most one body
read per body kind as long as the JSON body does not parse to `null`:
after a `load_json` that hands back a non-null parsed value, any later
`load_json` of the same request (also via `json_or_form`) returns the
cached value with no further body read and no state change; and after any
`load_form`, a later `load_form` returns the cached multidict with no
further body read and no state change. -/
theorem c2_cache_single_read (emap : Nat → Option Cls) (req : Request)
    (schema schema2 : Schema) (s : ParserState) (v : Json)
    (hv : (load_json emap req schema s).1 = .ok (.value v))
    (hnn : v.isNull = false) :
    load_json emap req schema2 (load_json emap req schema s).2 =
      (.ok (.value v), (load_json emap req schema s).2) ∧
    (load_json emap req schema2 (load_json emap req schema s).2).2.json_reads =
      (load_json emap req schema s).2.json_reads ∧
    (load_form req schema2 (load_form req schema s).2).1.data =
      (load_form req schema s).1.data ∧
    (load_form req schema2 (load_form req schema s).2).2 =
      (load_form req schema s).2 := by
  have hc := load_json_value_caches emap req schema s v hv
  have h2 := load_json_cache_hit emap req schema2
    (load_json emap req schema s).2 v hc hnn
  have h3 := load_form_cache_hit req schema2 (load_form req schema s).2
    (load_form req schema s).1.data (load_form_caches req schema s)
  exact ⟨h2, by rw [h2], by rw [h3], by rw [h3]⟩

/-- A concrete request with a well-formed, non-null JSON body. -/
def strBodyReq : Request :=
  { body_exists := true, content_type_is_json := true,
    json_body := .ok (.str "hello"), post := [], query := [] }

/-- Witness for amended C2 at a concrete input: a string JSON body is read
once and served from the cache on the second load. -/
theorem c2_cache_single_read_witness :
    load_json exception_map_init strBodyReq ⟨[]⟩
        (load_json exception_map_init strBodyReq ⟨[]⟩ initState).2 =
      (.ok (.value (.str "hello")),
        (load_json exception_map_init strBodyReq ⟨[]⟩ initState).2) :=
  (c2_cache_single_read exception_map_init strBodyReq ⟨[]⟩ ⟨[]⟩ initState
      (.str "hello") rfl rfl).1

/-- Lemma: a key the proxy yields nothing for never appears among the
parsed arguments. -/
theorem lookup_filterMap_absent (p : MultiDictProxy) (k : String)
    (h : p.get k = none) (fs : List (String × Bool)) :
    lookupArg (fs.filterMap (fun f => (p.get f.1).map (fun v => (f.1, v)))) k
      = none := by
  induction fs with
  | nil => rfl
  | cons f fs ih =>
      cases hf : p.get f.1 with
      | none => simpa [List.filterMap_cons, hf] using ih
      | some v =>
          by_cases hk : f.1 = k
          · rw [hk, h] at hf
            cases hf
          · simp only [List.filterMap_cons, hf, Option.map_some']
            simpa [lookupArg, List.find?_cons, hk] using ih

/-- Lemma: for a declared key the proxy yields a value for, the first
parsed binding carries exactly the proxy's value. -/
theorem lookup_filterMap_present (p : MultiDictProxy) (k : String) (w : RawVal)
    (h : p.get k = some w) (fs : List (String × Bool))
    (hk : ∃ f ∈ fs, f.1 = k) :
    lookupArg (fs.filterMap (fun f => (p.get f.1).map (fun v => (f.1, v)))) k
      = some w := by
  induction fs with
  | nil =>
      obtain ⟨f, hf, -⟩ := hk
      cases hf
  | cons f fs ih =>
      by_cases hfk : f.1 = k
      · subst hfk
        simp [List.filterMap_cons, h, Option.map_some', lookupArg,
          List.find?_cons]
      · have hk' : ∃ g ∈ fs, g.1 = k := by
          obtain ⟨g, hg, hgk⟩ := hk
          rcases List.mem_cons.mp hg with rfl | hg'
          · exact absurd hgk hfk
          · exact ⟨g, hg', hgk⟩
        cases hf : p.get f.1 with
        | none => simpa [List.filterMap_cons, hf] using ih hk'
        | some v =>
            simp only [List.filterMap_cons, hf, Option.map_some']
            simpa [lookupArg, List.find?_cons, hfk] using ih hk'

/-- A schema-declared field name occurs among the schema's fields. -/
theorem schemaMultiplicity_mem (schema : Schema) (k : String) (b : Bool)
    (h : schemaMultiplicity schema k = some b) :
    ∃ f ∈ schema.fields, f.1 = k := by
  unfold schemaMultiplicity at h
  rcases Option.map_eq_some'.mp h with ⟨f, hf, -⟩
  exact ⟨f, List.mem_of_find?_eq_some hf,
    by simpa using List.find?_some hf⟩

/-- Claim C6: parsing location `query` binds a schema-declared scalar field
to the single submitted value for its key and a schema-declared list field
to the full ordered sequence of submitted values, driven by the declared
multiplicity — the same raw shape parses differently depending only on the
schema field's declaration. -/
theorem c6_parse_query_multiplicity (schema : Schema) (req : Request)
    (k v : String) (vs : List String) :
    (schemaMultiplicity schema k = some false → getall req.query k = [v] →
        lookupArg (parse_query schema req) k = some (.one v)) ∧
    (schemaMultiplicity schema k = some true → getall req.query k = vs →
        vs ≠ [] →
        lookupArg (parse_query schema req) k = some (.many vs)) := by
  constructor
  · intro hm hq
    have hget : (load_querystring req schema).get k = some (.one v) := by
      simp only [MultiDictProxy.get, load_querystring, hq, hm]
    exact lookup_filterMap_present _ k _ hget schema.fields
      (schemaMultiplicity_mem schema k false hm)
  · intro hm hq hne
    have hget : (load_querystring req schema).get k = some (.many vs) := by
      cases vs with
      | nil => exact absurd rfl hne
      | cons w ws => simp only [MultiDictProxy.get, load_querystring, hq, hm]
    exact lookup_filterMap_present _ k _ hget schema.fields
      (schemaMultiplicity_mem schema k true hm)

/-- A concrete schema declaring a scalar field `name` and a list field
`tags`, and a query string submitting one `name` and two `tags`. -/
def multiQueryReq : Request :=
  { body_exists := false, content_type_is_json := false,
    json_body := .jsonDecodeError "",
    post := [],
    query := [("name", "Steve"), ("tags", "a"), ("tags", "b")] }

/-- Witness for C6 at a concrete input: scalar field bound to the single
value, list field bound to the ordered pair. -/
theorem c6_parse_query_multiplicity_witness :
    lookupArg (parse_query ⟨[("name", false), ("tags", true)]⟩ multiQueryReq)
        "name" = some (.one "Steve") ∧
    lookupArg (parse_query ⟨[("name", false), ("tags", true)]⟩ multiQueryReq)
        "tags" = some (.many ["a", "b"]) :=
  ⟨(c6_parse_query_multiplicity ⟨[("name", false), ("tags", true)]⟩
      multiQueryReq "name" "Steve" []).1 (by decide) (by decide),
   (c6_parse_query_multiplicity ⟨[("name", false), ("tags", true)]⟩
      multiQueryReq "tags" "" ["a", "b"]).2 (by decide) (by decide)
      (by decide)⟩

/-- A candidate for a status code: the class the map already registers for
it, or any enumerated class that is an HTTP exception with that concrete
status code. -/
def InCand (m : Nat → Option Cls) (code : Nat) (table : List Cls) (c : Cls) : Prop :=
  m code = some c ∨
    (c ∈ table ∧ c.is_http_exception = true ∧ c.status_code = some code)

/-- Folding one class is definitionally one loop iteration. -/
theorem find_exceptions_cons (obj : Cls) (rest : List Cls)
    (m : Nat → Option Cls) :
    find_exceptions (obj :: rest) m =
      find_exceptions rest (find_exceptions_step m obj) := rfl

/-- Classification of one loop iteration: either the map is unchanged (the
class is not an HTTP exception, has no concrete status code, or subclasses
the class already registered for its code), or the class is written at its
own status code and does not subclass the previously registered class. -/
theorem find_exceptions_step_cases (m : Nat → Option Cls) (obj : Cls) :
    (find_exceptions_step m obj = m ∧
      (¬obj.is_http_exception = true ∨ obj.status_code = none ∨
        ∃ code old, obj.status_code = some code ∧ m code = some old ∧
          isSubclassOf obj old = true)) ∨
    (∃ code, obj.is_http_exception = true ∧ obj.status_code = some code ∧
      find_exceptions_step m obj = mapInsert m code obj ∧
      ∀ old, m code = some old → isSubclassOf obj old = false) := by
  by_cases hh : obj.is_http_exception = false
  · have hstep : find_exceptions_step m obj = m := by
      simp [find_exceptions_step, hh]
    exact Or.inl ⟨hstep, Or.inl (by simp [hh])⟩
  · have hh' : obj.is_http_exception = true := by
      cases h : obj.is_http_exception
      · exact absurd h hh
      · rfl
    cases hsc : obj.status_code with
    | none =>
        have hstep : find_exceptions_step m obj = m := by
          simp [find_exceptions_step, hh', hsc]
        exact Or.inl ⟨hstep, Or.inr (Or.inl rfl)⟩
    | some code =>
        cases hm : m code with
        | none =>
            have hstep : find_exceptions_step m obj = mapInsert m code obj := by
              simp [find_exceptions_step, hh', hsc, hm]
            refine Or.inr ⟨code, hh', rfl, hstep, ?_⟩
            intro old h
            rw [hm] at h
            cases h
        | some old =>
            by_cases hsub : isSubclassOf obj old = true
            · have hstep : find_exceptions_step m obj = m := by
                simp [find_exceptions_step, hh', hsc, hm, hsub]
              exact Or.inl ⟨hstep, Or.inr (Or.inr ⟨code, old, rfl, hm, hsub⟩)⟩
            · have hstep : find_exceptions_step m obj = mapInsert m code obj := by
                simp [find_exceptions_step, hh', hsc, hm, hsub]
              refine Or.inr ⟨code, hh', rfl, hstep, ?_⟩
              intro old2 h2
              rw [hm] at h2
              injection h2 with h2
              subst h2
              simp only [Bool.not_eq_true] at hsub
              exact hsub

/-- One loop iteration never removes an entry. -/
theorem find_exceptions_step_preserves (m : Nat → Option Cls) (obj : Cls)
    (code : Nat) (r : Cls) (h : m code = some r) :
    ∃ r2, (find_exceptions_step m obj) code = some r2 := by
  rcases find_exceptions_step_cases m obj with ⟨heq, -⟩ | ⟨c2, -, -, heq, -⟩
  · exact ⟨r, by rw [heq, h]⟩
  · rw [heq]
    unfold mapInsert
    by_cases hc : code = c2
    · exact ⟨obj, by rw [if_pos hc]⟩
    · exact ⟨r, by rw [if_neg hc, h]⟩

/-- The scan never removes an entry. -/
theorem find_exceptions_preserves (table : List Cls) (m : Nat → Option Cls)
    (code : Nat) (r : Cls) (h : m code = some r) :
    ∃ r2, find_exceptions table m code = some r2 := by
  induction table generalizing m r with
  | nil => exact ⟨r, h⟩
  | cons obj rest ih =>
      obtain ⟨r2, h2⟩ := find_exceptions_step_preserves m obj code r h
      exact ih _ r2 h2

/-- Scanning a table containing an HTTP exception with a concrete status
code leaves an entry registered for that code. -/
theorem find_exceptions_establishes (table : List Cls) (m : Nat → Option Cls)
    (code : Nat) (c : Cls) (hhttp : c.is_http_exception = true)
    (hcode : c.status_code = some code) :
    c ∈ table → ∃ r, find_exceptions table m code = some r := by
  induction table generalizing m with
  | nil => intro hc; cases hc
  | cons obj rest ih =>
      intro hc
      rcases List.mem_cons.mp hc with rfl | hmem
      · rcases find_exceptions_step_cases m c with
          ⟨heq, hreason⟩ | ⟨c2, -, hsc, heq, -⟩
        · rcases hreason with hr | hr | ⟨code2, old, hsc2, hm, -⟩
          · exact absurd hhttp hr
          · rw [hcode] at hr
            cases hr
          · rw [hcode] at hsc2
            injection hsc2 with h2
            subst h2
            exact find_exceptions_preserves rest _ code old (by rw [heq, hm])
        · rw [hcode] at hsc
          injection hsc with h2
          subst h2
          exact find_exceptions_preserves rest _ code c
            (by rw [heq]; unfold mapInsert; rw [if_pos rfl])
      · exact ih _ hmem

/-- Every entry registered during the scan carries the status code it is
registered under, provided the initial map does. -/
theorem find_exceptions_status (table : List Cls) (m : Nat → Option Cls)
    (hm : ∀ code r, m code = some r → r.status_code = some code) :
    ∀ code r, find_exceptions table m code = some r →
      r.status_code = some code := by
  induction table generalizing m with
  | nil => exact hm
  | cons obj rest ih =>
      refine ih _ ?_
      intro code r h
      rcases find_exceptions_step_cases m obj with
        ⟨heq, -⟩ | ⟨c2, -, hsc, heq, -⟩
      · rw [heq] at h
        exact hm code r h
      · rw [heq] at h
        unfold mapInsert at h
        by_cases hc : code = c2
        · rw [if_pos hc] at h
          injection h with h
          subst h
          rw [hsc, hc]
        · rw [if_neg hc] at h
          exact hm code r h

/-- The seeded initial map satisfies the status invariant. -/
theorem exception_map_init_status :
    ∀ code r, exception_map_init code = some r → r.status_code = some code := by
  intro code r h
  unfold exception_map_init at h
  by_cases hc : code = 422
  · rw [if_pos hc] at h
    injection h with h
    subst h
    rw [hc]
    rfl
  · rw [if_neg hc] at h
    cases h

/-- When the candidates for a status code form a subclass chain, the scan
leaves the most general among them registered: a class that subclasses the
registered one is skipped, and a registered class that is not a superclass
of a newly scanned one is replaced by it. -/
theorem find_exceptions_chain (table : List Cls) (m : Nat → Option Cls)
    (code : Nat)
    (hrefl : ∀ c, InCand m code table c → isSubclassOf c c = true)
    (htrans : ∀ a b c, InCand m code table a → InCand m code table b →
        InCand m code table c → isSubclassOf a b = true →
        isSubclassOf b c = true → isSubclassOf a c = true)
    (htotal : ∀ a b, InCand m code table a → InCand m code table b →
        isSubclassOf a b = true ∨ isSubclassOf b a = true)
    (hne : ∃ c, InCand m code table c) :
    ∃ g, find_exceptions table m code = some g ∧ InCand m code table g ∧
      ∀ c, InCand m code table c → isSubclassOf c g = true := by
  revert hrefl htrans htotal hne
  induction table generalizing m with
  | nil =>
      intro hrefl htrans htotal hne
      obtain ⟨c, hc⟩ := hne
      have hmc : m code = some c := by
        rcases hc with h | ⟨h, -, -⟩
        · exact h
        · cases h
      refine ⟨c, hmc, Or.inl hmc, ?_⟩
      intro d hd
      have hdc : d = c := by
        rcases hd with h | ⟨h, -, -⟩
        · rw [hmc] at h
          injection h with h
          exact h.symm
        · cases h
      rw [hdc]
      exact hrefl c (Or.inl hmc)
  | cons obj rest ih =>
      intro hrefl htrans htotal hne
      rcases find_exceptions_step_cases m obj with
        ⟨heq, hreason⟩ | ⟨code2, hhttp2, hsc2, heq, hnosub⟩
      · have hsub : ∀ c, InCand (find_exceptions_step m obj) code rest c →
            InCand m code (obj :: rest) c := by
          intro c hc
          rcases hc with h | ⟨h, he⟩
          · rw [heq] at h
            exact Or.inl h
          · exact Or.inr ⟨List.mem_cons_of_mem _ h, he⟩
        have hne' : ∃ c, InCand (find_exceptions_step m obj) code rest c := by
          obtain ⟨c, hc⟩ := hne
          rcases hc with h | ⟨hmem, hhttp, hsc⟩
          · exact ⟨c, Or.inl (by rw [heq]; exact h)⟩
          · rcases List.mem_cons.mp hmem with rfl | hmem'
            · rcases hreason with hr | hr | ⟨codeB, old, hscB, hm, -⟩
              · exact absurd hhttp hr
              · rw [hsc] at hr
                cases hr
              · rw [hsc] at hscB
                injection hscB with hcodes
                subst hcodes
                exact ⟨old, Or.inl (by rw [heq]; exact hm)⟩
            · exact ⟨c, Or.inr ⟨hmem', hhttp, hsc⟩⟩
        obtain ⟨g, hg1, hg2, hg3⟩ :=
          ih _ (fun c hc => hrefl c (hsub c hc))
            (fun a b c ha hb hc =>
              htrans a b c (hsub a ha) (hsub b hb) (hsub c hc))
            (fun a b ha hb => htotal a b (hsub a ha) (hsub b hb))
            hne'
        refine ⟨g, hg1, hsub g hg2, ?_⟩
        intro c hc
        rcases hc with h | ⟨hmem, hhttp, hsc⟩
        · exact hg3 c (Or.inl (by rw [heq]; exact h))
        · rcases List.mem_cons.mp hmem with rfl | hmem'
          · rcases hreason with hr | hr | ⟨codeB, old, hscB, hm, hsubB⟩
            · exact absurd hhttp hr
            · rw [hsc] at hr
              cases hr
            · rw [hsc] at hscB
              injection hscB with hcodes
              subst hcodes
              have hold : InCand (find_exceptions_step m c) code rest old :=
                Or.inl (by rw [heq]; exact hm)
              exact htrans c old g
                (Or.inr ⟨List.mem_cons_self _ _, hhttp, hsc⟩)
                (hsub old hold) (hsub g hg2) hsubB (hg3 old hold)
          · exact hg3 c (Or.inr ⟨hmem', hhttp, hsc⟩)
      · by_cases hcc : code = code2
        · subst hcc
          have hmstep : (find_exceptions_step m obj) code = some obj := by
            rw [heq]
            unfold mapInsert
            rw [if_pos rfl]
          have hobjfull : InCand m code (obj :: rest) obj :=
            Or.inr ⟨List.mem_cons_self _ _, hhttp2, hsc2⟩
          have hsub : ∀ c, InCand (find_exceptions_step m obj) code rest c →
              InCand m code (obj :: rest) c := by
            intro c hc
            rcases hc with h | ⟨h, he⟩
            · rw [hmstep] at h
              injection h with h
              rw [← h]
              exact hobjfull
            · exact Or.inr ⟨List.mem_cons_of_mem _ h, he⟩
          have hne' : ∃ c, InCand (find_exceptions_step m obj) code rest c :=
            ⟨obj, Or.inl hmstep⟩
          obtain ⟨g, hg1, hg2, hg3⟩ :=
            ih _ (fun c hc => hrefl c (hsub c hc))
              (fun a b c ha hb hc =>
                htrans a b c (hsub a ha) (hsub b hb) (hsub c hc))
              (fun a b ha hb => htotal a b (hsub a ha) (hsub b hb))
              hne'
          have hobjg : isSubclassOf obj g = true := hg3 obj (Or.inl hmstep)
          refine ⟨g, hg1, hsub g hg2, ?_⟩
          intro c hc
          rcases hc with h | ⟨hmem, hhttp, hsc⟩
          · have hco : isSubclassOf c obj = true := by
              rcases htotal c obj (Or.inl h) hobjfull with hh | hh
              · exact hh
              · rw [hnosub c h] at hh
                cases hh
            exact htrans c obj g (Or.inl h) hobjfull (hsub g hg2) hco hobjg
          · rcases List.mem_cons.mp hmem with rfl | hmem'
            · exact hobjg
            · exact hg3 c (Or.inr ⟨hmem', hhttp, hsc⟩)
        · have hmstep : (find_exceptions_step m obj) code = m code := by
            rw [heq]
            unfold mapInsert
            rw [if_neg hcc]
          have hsub : ∀ c, InCand (find_exceptions_step m obj) code rest c →
              InCand m code (obj :: rest) c := by
            intro c hc
            rcases hc with h | ⟨h, he⟩
            · rw [hmstep] at h
              exact Or.inl h
            · exact Or.inr ⟨List.mem_cons_of_mem _ h, he⟩
          have hne' : ∃ c, InCand (find_exceptions_step m obj) code rest c := by
            obtain ⟨c, hc⟩ := hne
            rcases hc with h | ⟨hmem, hhttp, hsc⟩
            · exact ⟨c, Or.inl (by rw [hmstep]; exact h)⟩
            · rcases List.mem_cons.mp hmem with rfl | hmem'
              · rw [hsc] at hsc2
                injection hsc2 with hcodes
                exact absurd hcodes hcc
              · exact ⟨c, Or.inr ⟨hmem', hhttp, hsc⟩⟩
          obtain ⟨g, hg1, hg2, hg3⟩ :=
            ih _ (fun c hc => hrefl c (hsub c hc))
              (fun a b c ha hb hc =>
                htrans a b c (hsub a ha) (hsub b hb) (hsub c hc))
              (fun a b ha hb => htotal a b (hsub a ha) (hsub b hb))
              hne'
          refine ⟨g, hg1, hsub g hg2, ?_⟩
          intro c hc
          rcases hc with h | ⟨hmem, hhttp, hsc⟩
          · exact hg3 c (Or.inl (by rw [hmstep]; exact h))
          · rcases List.mem_cons.mp hmem with rfl | hmem'
            · rw [hsc] at hsc2
              injection hsc2 with hcodes
              exact absurd hcodes hcc
            · exact hg3 c (Or.inr ⟨hmem', hhttp, hsc⟩)

/-- A base 400-status class and a more specific subclass of it, as a
framework could enumerate them. -/
def baseCls400 : Cls :=
  { id := 10, is_http_exception := true, status_code := some 400, supers := [10] }

/-- See `baseCls400`: this class subclasses it and shares status 400. -/
def subCls400 : Cls :=
  { id := 11, is_http_exception := true, status_code := some 400,
    supers := [11, 10] }

/-- Counterexample to claim C4 as stated: enumerating a base class and then
its strict subclass, both carrying status 400, leaves the *base* class
registered for 400 — the most specific type seen, `subCls400`, is skipped
(it subclasses the registered one), contradicting "each status code maps to
the most specific type seen for it". -/
theorem c4_scan_counterexample :
    find_exceptions [baseCls400, subCls400] exception_map_init 400 =
      some baseCls400 ∧
    subCls400 ∈ [baseCls400, subCls400] ∧
    subCls400.is_http_exception = true ∧
    subCls400.status_code = some 400 ∧
    isSubclassOf subCls400 baseCls400 = true ∧
    isSubclassOf baseCls400 subCls400 = false ∧
    subCls400 ≠ baseCls400 := by
  decide

/-- Claim C4 (amended): the startup scan registers each enumerated HTTP
exception with a concrete status code under that code unless it is itself
a subclass of the type already registered for the same code — so, when the
candidate types for a code form a subclass chain, the code ends up mapped
to the most general type seen for it — and the table is pre-seeded so
status 422 maps to the dedicated `HTTPUnprocessableEntity` type. -/
theorem c4_find_exceptions_most_general (table : List Cls) (code : Nat)
    (hrefl : ∀ c, InCand exception_map_init code table c →
        isSubclassOf c c = true)
    (htrans : ∀ a b c, InCand exception_map_init code table a →
        InCand exception_map_init code table b →
        InCand exception_map_init code table c → isSubclassOf a b = true →
        isSubclassOf b c = true → isSubclassOf a c = true)
    (htotal : ∀ a b, InCand exception_map_init code table a →
        InCand exception_map_init code table b →
        isSubclassOf a b = true ∨ isSubclassOf b a = true)
    (hne : ∃ c, InCand exception_map_init code table c) :
    (∃ g, find_exceptions table exception_map_init code = some g ∧
        InCand exception_map_init code table g ∧
        ∀ c, InCand exception_map_init code table c →
          isSubclassOf c g = true) ∧
    exception_map_init 422 = some HTTPUnprocessableEntity ∧
    HTTPUnprocessableEntity.status_code = some 422 :=
  ⟨find_exceptions_chain table exception_map_init code hrefl htrans htotal hne,
    rfl, rfl⟩

/-- Witness for amended C4 at a concrete input: on the chain
`baseCls400, subCls400` the scan registers the most general class. -/
theorem c4_find_exceptions_most_general_witness :
    ∃ g, find_exceptions [baseCls400, subCls400] exception_map_init 400 =
        some g ∧
      InCand exception_map_init 400 [baseCls400, subCls400] g ∧
      ∀ c, InCand exception_map_init 400 [baseCls400, subCls400] c →
        isSubclassOf c g = true := by
  have hmem : ∀ c : Cls, InCand exception_map_init 400 [baseCls400, subCls400] c →
      c = baseCls400 ∨ c = subCls400 := by
    intro c hc
    rcases hc with h | ⟨h, -, -⟩
    · simp [exception_map_init] at h
    · simpa using h
  refine (c4_find_exceptions_most_general [baseCls400, subCls400] 400
    ?_ ?_ ?_ ?_).1
  · intro c hc
    rcases hmem c hc with rfl | rfl <;> decide
  · intro a b c ha hb hc hab hbc
    rcases hmem a ha with rfl | rfl <;> rcases hmem b hb with rfl | rfl <;>
      rcases hmem c hc with rfl | rfl <;> revert hab hbc <;> decide
  · intro a b ha hb
    rcases hmem a ha with rfl | rfl <;> rcases hmem b hb with rfl | rfl <;>
      decide
  · exact ⟨baseCls400, Or.inr ⟨by decide, rfl, rfl⟩⟩

/-- Claim C10: scanning a framework table that enumerates an HTTP exception
with concrete status 400 leaves the exception map with entries for both
400 and the seeded 422, so the unguarded `exception_map[400]` indexing in
`_handle_invalid_json_error` cannot raise a missing-key error: the function
always raises a status-400 HTTP error with the fixed JSON body. -/
theorem c10_exception_map_covers (table : List Cls) (c : Cls)
    (hmem : c ∈ table) (hhttp : c.is_http_exception = true)
    (hcode : c.status_code = some 400) :
    (∃ c400, find_exceptions table exception_map_init 400 = some c400 ∧
        c400.status_code = some 400) ∧
    (∃ c422, find_exceptions table exception_map_init 422 = some c422 ∧
        c422.status_code = some 422) ∧
    (∃ cls, handle_invalid_json_error (find_exceptions table exception_map_init)
        = .http cls (dumpsMessages invalid_json_messages) none "application/json"
        ∧ cls.status_code = some 400) := by
  have hstatus := find_exceptions_status table exception_map_init
    exception_map_init_status
  obtain ⟨c400, h400⟩ := find_exceptions_establishes table exception_map_init
    400 c hhttp hcode hmem
  obtain ⟨c422, h422⟩ := find_exceptions_preserves table exception_map_init
    422 HTTPUnprocessableEntity rfl
  refine ⟨⟨c400, h400, hstatus 400 c400 h400⟩,
    ⟨c422, h422, hstatus 422 c422 h422⟩,
    ⟨c400, ?_, hstatus 400 c400 h400⟩⟩
  unfold handle_invalid_json_error
  rw [h400]

/-- Witness for C10 at a concrete input: a one-class framework table. -/
theorem c10_exception_map_covers_witness :
    (∃ c400, find_exceptions [sampleBadRequestCls] exception_map_init 400 =
        some c400 ∧ c400.status_code = some 400) ∧
    (∃ c422, find_exceptions [sampleBadRequestCls] exception_map_init 422 =
        some c422 ∧ c422.status_code = some 422) ∧
    (∃ cls,
        handle_invalid_json_error
            (find_exceptions [sampleBadRequestCls] exception_map_init) =
          .http cls (dumpsMessages invalid_json_messages) none
            "application/json" ∧
        cls.status_code = some 400) :=
  c10_exception_map_covers [sampleBadRequestCls] sampleBadRequestCls
    (by decide) (by decide) (by decide)

end Webargs
